import Mathlib

/-!
Verification of the `StringInput` line-editing widget of
`inquisition-ui/src/string_input.rs` (the `requestty` prompt toolkit).

The Rust `String` is embedded as a list of Unicode scalar values (`List Char`)
together with its allocated capacity in bytes, which `has_value` observes
through `String::capacity`.  Byte indices are modelled faithfully: every byte
offset used by the source is computed from UTF-8 character widths, and the
list operations below recurse on characters while consuming byte counts.

`usize` arithmetic follows release-mode Rust: subtraction and addition wrap
modulo 2^64.  Explicit panics of the Rust standard library (`String::remove`
on an out-of-range index, the `unimplemented!` arm of `render`) are modelled
with `Option`/an error constructor.
-/

namespace StringInputSpec

/-- The modulus of `usize` arithmetic, 2^64. -/
def USIZE : Nat := 18446744073709551616

/-- Wrapping `usize` subtraction (release-mode Rust semantics). -/
def wsub (a b : Nat) : Nat := if b ≤ a then a - b else (a + USIZE - b) % USIZE

/-- Wrapping `usize` addition (release-mode Rust semantics). -/
def wadd (a b : Nat) : Nat := (a + b) % USIZE

/-- Rust `char::is_whitespace`: the Unicode `White_Space` property
(code points 0x09..0x0D, 0x20, 0x85, 0xA0, 0x1680, 0x2000..0x200A,
0x2028, 0x2029, 0x202F, 0x205F, 0x3000). -/
def rustIsWhitespace (c : Char) : Bool :=
  let n := c.toNat
  (0x09 ≤ n && n ≤ 0x0D) || n == 0x20 || n == 0x85 || n == 0xA0 ||
    n == 0x1680 || (0x2000 ≤ n && n ≤ 0x200A) || n == 0x2028 ||
    n == 0x2029 || n == 0x202F || n == 0x205F || n == 0x3000

/-- Rust `char::len_utf8`: the number of bytes of the UTF-8 encoding. -/
def charUtf8Size (c : Char) : Nat :=
  if c.toNat < 0x80 then 1
  else if c.toNat < 0x800 then 2
  else if c.toNat < 0x10000 then 3
  else 4

/-- Rust `char::encode_utf8`: the UTF-8 bytes of a scalar value. -/
def utf8Encode (c : Char) : List Nat :=
  let n := c.toNat
  if n < 0x80 then [n]
  else if n < 0x800 then [0xC0 + n / 0x40, 0x80 + n % 0x40]
  else if n < 0x10000 then
    [0xE0 + n / 0x1000, 0x80 + (n / 0x40) % 0x40, 0x80 + n % 0x40]
  else
    [0xF0 + n / 0x40000, 0x80 + (n / 0x1000) % 0x40,
      0x80 + (n / 0x40) % 0x40, 0x80 + n % 0x40]

/-- Rust `str::len`: the total UTF-8 byte length of a character sequence. -/
def utf8TotalLen (s : List Char) : Nat := (s.map charUtf8Size).sum

/-- Rust `String::as_bytes`: the full UTF-8 byte encoding. -/
def utf8Bytes (s : List Char) : List Nat := (s.map utf8Encode).flatten

/-- The characters occupying the first `n` bytes (`n` a char boundary;
used to model byte-indexed slicing such as `truncate`). -/
def byteTake : List Char → Nat → List Char
  | _, 0 => []
  | [], _ => []
  | c :: rest, n => c :: byteTake rest (n - charUtf8Size c)

/-- The characters after the first `n` bytes (`n` a char boundary). -/
def byteDrop : List Char → Nat → List Char
  | s, 0 => s
  | [], _ => []
  | c :: rest, n => byteDrop rest (n - charUtf8Size c)

/-- Source `StringInput::get_byte_i`: the byte index of a given char index
(`self.value.char_indices().nth(index)`, falling back to the byte length). -/
def byteIdxOfChar (s : List Char) (index : Nat) : Nat :=
  utf8TotalLen (s.take index)

/-- Walks the characters accumulating byte position `pos` and char position
`idx`, looking for the char whose byte offset is exactly `target`. -/
def charIdxOfByteAux (target : Nat) : List Char → Nat → Nat → Nat
  | [], _, idx => idx
  | c :: rest, pos, idx =>
    if pos = target then idx
    else charIdxOfByteAux target rest (pos + charUtf8Size c) (idx + 1)

/-- Source `StringInput::get_char_i`: the char index of a given byte index
(`position(|(i, _)| i == byte_i)`, falling back to the char count). -/
def charIdxOfByte (s : List Char) (byteI : Nat) : Nat :=
  charIdxOfByteAux byteI s 0 0

/-- Modelled from the spec: the word-segmentation of the external
`unicode_segmentation::split_word_bound_indices` as consumed through
`StringInput::word_iter`, whose filter keeps exactly the segments starting
with a non-whitespace character.  Per the spec, "a word is a maximal run of
non-whitespace segment-bounded text", so the retained byte offsets are the
starts of the maximal non-whitespace runs: positions of non-whitespace
characters preceded by whitespace or by the start of the slice.
`prevWs` records whether the previous character was whitespace (true at the
start); `pos` is the byte offset of the head character. -/
def wordStartsFrom : Bool → Nat → List Char → List Nat
  | _, _, [] => []
  | prevWs, pos, c :: rest =>
    if rustIsWhitespace c then
      wordStartsFrom true (pos + charUtf8Size c) rest
    else if prevWs then
      pos :: wordStartsFrom false (pos + charUtf8Size c) rest
    else
      wordStartsFrom false (pos + charUtf8Size c) rest

/-- Byte offsets of the word starts of a whole slice. -/
def wordStarts (s : List Char) : List Nat := wordStartsFrom true 0 s

/-- The whitespace-class that a slice leaves for a follower: the class of its
last character, or `b` when it is empty. -/
def endClass (b : Bool) : List Char → Bool
  | [] => b
  | c :: rest => endClass (rustIsWhitespace c) rest

/-- Source `StringInput::find_word_left`: byte index of the start of the first word
to the left of `byte_i` (`word_iter(0..byte_i).next_back()`, default 0). -/
def findWordLeft (s : List Char) (byteI : Nat) : Nat :=
  ((wordStarts (byteTake s byteI)).getLast?).getD 0

/-- Source `StringInput::find_word_right`: byte index of the start of the second
word at or after `byte_i` (`word_iter(byte_i..len).nth(1)`, offsets shifted
by `byte_i`, default the byte length of the whole string). -/
def findWordRight (s : List Char) (byteI : Nat) : Nat :=
  match (wordStarts (byteDrop s byteI)).get? 1 with
  | some p => p + byteI
  | none => utf8TotalLen s

/-- A Rust `String`: its characters together with its allocated capacity in
bytes (`String::capacity`), which `StringInput::has_value` observes. -/
structure RString where
  chars : List Char
  cap : Nat
deriving DecidableEq, Repr

/-- Current UTF-8 byte length of the string. -/
def RString.byteLen (s : RString) : Nat := utf8TotalLen s.chars

/-- Capacity after an insertion needing `newLen` bytes: Rust's `RawVec`
amortized growth keeps the capacity when it suffices and otherwise grows to
at least the maximum of twice the old capacity and the needed length.  Only
`0 < cap` and monotonicity are relied upon by any theorem below. -/
def growCap (cap newLen : Nat) : Nat :=
  if newLen ≤ cap then cap else max (2 * cap) newLen

/-- Rust `String::push`. -/
def RString.push (s : RString) (c : Char) : RString :=
  ⟨s.chars ++ [c], growCap s.cap (s.byteLen + charUtf8Size c)⟩

/-- Rust `String::insert` at a byte index (always called on a char boundary
`byteI ≤ byteLen` by the widget). -/
def RString.insertAt (s : RString) (byteI : Nat) (c : Char) : RString :=
  ⟨byteTake s.chars byteI ++ c :: byteDrop s.chars byteI,
    growCap s.cap (s.byteLen + charUtf8Size c)⟩

/-- Rust `String::pop`: removes the last character (no-op on an empty string);
capacity is untouched. -/
def RString.pop (s : RString) : RString := ⟨s.chars.dropLast, s.cap⟩

/-- Rust `String::remove` at a byte index: panics (`none`) when the index is out
of range; capacity is untouched. -/
def RString.removeAt (s : RString) (byteI : Nat) : Option RString :=
  match byteDrop s.chars byteI with
  | [] => none
  | _ :: rest => some ⟨byteTake s.chars byteI ++ rest, s.cap⟩

/-- Rust `String::truncate` at a byte index; capacity is untouched. -/
def RString.truncateAt (s : RString) (byteI : Nat) : RString :=
  ⟨byteTake s.chars byteI, s.cap⟩

/-- Rust `String::replace_range(a..b, "")`: deletes the bytes in `a..b`;
capacity is untouched. -/
def RString.replaceRangeEmpty (s : RString) (a b : Nat) : RString :=
  ⟨byteTake s.chars a ++ byteDrop s.chars b, s.cap⟩

/-- The modifier set of a key event (`KeyModifiers` bitflags; only the three
named flags exist for this widget). -/
structure KeyModifiers where
  control : Bool
  alt : Bool
  shift : Bool
deriving DecidableEq, Repr

/-- The `KeyCode` type (the constructors the widget can distinguish; every other code
falls through every match arm exactly like `tab`/`enter`/`up`/`down`). -/
inductive KeyCode where
  | char (c : Char)
  | backspace
  | delete
  | left
  | right
  | home
  | endKey
  | tab
  | enter
  | up
  | down
deriving DecidableEq, Repr

/-- A key event: a code plus a modifier set. -/
structure KeyEvent where
  code : KeyCode
  modifiers : KeyModifiers
deriving DecidableEq, Repr

/-- The `Movement` type (the variants produced by classification; `toEnd` stands for
the source's `Movement::End`). -/
inductive Movement where
  | home
  | prevWord
  | left
  | toEnd
  | nextWord
  | right
deriving DecidableEq, Repr

/-- The `StringInput` widget state.  The field `at_` is the source's `at`
(the cursor position in characters; `at` is a reserved word in Lean).  The
`filter_map_char` function is passed to `handleKey` explicitly rather than
stored, mirroring the type parameter `F`. -/
structure StringInput where
  value : RString
  mask : Option Char
  hide_output : Bool
  value_len : Nat
  at_ : Nat
deriving DecidableEq, Repr

/-- Source `StringInput::new(filter_map_char)` (the filter being external, only the
state fields appear). -/
def StringInput.new : StringInput :=
  ⟨⟨[], 0⟩, none, false, 0, 0⟩

/-- Source `StringInput::set_value`. -/
def StringInput.setValue (s : StringInput) (value : RString) : StringInput :=
  { s with
    value_len := value.chars.length,
    at_ := value.chars.length,
    value := value }

/-- Source `StringInput::has_value`: `self.value.capacity() > 0`. -/
def StringInput.hasValue (s : StringInput) : Bool := 0 < s.value.cap

/-- Source `StringInput::finish`: `self.has_value().then(|| self.value)`. -/
def StringInput.finish (s : StringInput) : Option RString :=
  if s.hasValue then some s.value else none

/-- Source `StringInput::is_delete_movement`, arm for arm in source order within
each key code (distinct codes are disjoint, so grouping by code preserves
the first-match semantics). -/
def StringInput.isDeleteMovement (s : StringInput) (key : KeyEvent) :
    Option Movement :=
  match key.code with
  | .backspace =>
    if s.at_ = 0 then none
    else if key.modifiers.alt then some .prevWord
    else some .left
  | .char c =>
    if c = 'u' && key.modifiers.control then some .home
    else if c = 'w' && key.modifiers.alt then some .prevWord
    else if c = 'w' && key.modifiers.control then some .left
    else if c = 'k' && key.modifiers.control then some .toEnd
    else if c = 'd' && key.modifiers.alt then some .nextWord
    else if c = 'd' && key.modifiers.control then some .right
    else none
  | .delete =>
    if s.at_ = s.value_len then none
    else if key.modifiers.alt then some .nextWord
    else some .right
  | _ => none

/-- Modelled from the spec: `Movement::try_from_key` lives in the events
module, which is not among the provided sources.  Per the spec the
non-deleting movements are "plain Left/Right arrow keys, control+arrow or
alt+arrow for word jumps, Home/End keys". -/
def tryFromKey (key : KeyEvent) : Option Movement :=
  match key.code with
  | .left =>
    if key.modifiers.control || key.modifiers.alt then some .prevWord
    else some .left
  | .right =>
    if key.modifiers.control || key.modifiers.alt then some .nextWord
    else some .right
  | .home => some .home
  | .endKey => some .toEnd
  | _ => none

/-- The final `match Movement::try_from_key(key)` of `handle_key`: pure
cursor movement.  A failed guard falls through to the `_` arm, which
returns `false` with no state change. -/
def StringInput.movementPhase (s : StringInput) (key : KeyEvent) :
    StringInput × Bool :=
  match tryFromKey key with
  | some .prevWord =>
    if s.at_ ≠ 0 then
      let newAt := charIdxOfByte s.value.chars
        (findWordLeft s.value.chars (byteIdxOfChar s.value.chars s.at_))
      ({ s with at_ := newAt }, true)
    else (s, false)
  | some .left =>
    if s.at_ ≠ 0 then ({ s with at_ := wsub s.at_ 1 }, true) else (s, false)
  | some .nextWord =>
    if s.at_ ≠ s.value_len then
      let newAt := charIdxOfByte s.value.chars
        (findWordRight s.value.chars (byteIdxOfChar s.value.chars s.at_))
      ({ s with at_ := newAt }, true)
    else (s, false)
  | some .right =>
    if s.at_ ≠ s.value_len then ({ s with at_ := wadd s.at_ 1 }, true)
    else (s, false)
  | some .home =>
    if s.at_ ≠ 0 then ({ s with at_ := 0 }, true) else (s, false)
  | some .toEnd =>
    if s.at_ ≠ s.value_len then ({ s with at_ := s.value_len }, true)
    else (s, false)
  | none => (s, false)

/-- The character-insertion phase followed by the movement phase: the part
of `handle_key` after the delete-movement match fell through. -/
def StringInput.insertPhase (f : Char → Option Char) (s : StringInput)
    (key : KeyEvent) : StringInput × Bool :=
  match key.code with
  | .char c =>
    if !(key.modifiers.control || key.modifiers.alt) then
      match f c with
      | some c2 =>
        if s.at_ = s.value_len then
          ({ s with
            value := s.value.push c2,
            at_ := wadd s.at_ 1,
            value_len := wadd s.value_len 1 }, true)
        else
          ({ s with
            value := s.value.insertAt (byteIdxOfChar s.value.chars s.at_) c2,
            at_ := wadd s.at_ 1,
            value_len := wadd s.value_len 1 }, true)
      | none => s.movementPhase key
    else s.movementPhase key
  | _ => s.movementPhase key

/-- Source `StringInput::handle_key`.  A `none` result models a Rust panic (the debug-mode
underflow of `self.at -= 1` is instead modelled with release-mode wrapping;
the `String::remove` out-of-range panic occurs in every build profile). -/
def StringInput.handleKey (f : Char → Option Char) (s : StringInput)
    (key : KeyEvent) : Option (StringInput × Bool) :=
  match s.isDeleteMovement key with
  | some .home =>
    let byteI := byteIdxOfChar s.value.chars s.at_
    some ({ s with
      value_len := wsub s.value_len s.at_,
      at_ := 0,
      value := s.value.replaceRangeEmpty 0 byteI }, true)
  | some .prevWord =>
    let wasAt := s.at_
    let byteI := byteIdxOfChar s.value.chars wasAt
    let prevWord := findWordLeft s.value.chars byteI
    let newAt := charIdxOfByte s.value.chars prevWord
    some ({ s with
      at_ := newAt,
      value_len := wsub s.value_len (wsub wasAt newAt),
      value := s.value.replaceRangeEmpty prevWord byteI }, true)
  | some .left =>
    if s.at_ = s.value_len then
      some ({ s with
        at_ := wsub s.at_ 1,
        value_len := wsub s.value_len 1,
        value := s.value.pop }, true)
    else
      let newAt := wsub s.at_ 1
      let byteI := byteIdxOfChar s.value.chars newAt
      match s.value.removeAt byteI with
      | none => none
      | some v =>
        some ({ s with
          at_ := newAt,
          value_len := wsub s.value_len 1,
          value := v }, true)
  | some .toEnd =>
    let byteI := byteIdxOfChar s.value.chars s.at_
    some ({ s with
      value_len := s.at_,
      value := s.value.truncateAt byteI }, true)
  | some .nextWord =>
    let byteI := byteIdxOfChar s.value.chars s.at_
    let nextWord := findWordRight s.value.chars byteI
    some ({ s with
      value_len :=
        wsub s.value_len (wsub (charIdxOfByte s.value.chars nextWord) s.at_),
      value := s.value.replaceRangeEmpty byteI nextWord }, true)
  | some .right =>
    if s.at_ = wsub s.value_len 1 then
      some ({ s with
        value_len := wsub s.value_len 1,
        value := s.value.pop }, true)
    else
      let byteI := byteIdxOfChar s.value.chars s.at_
      match s.value.removeAt byteI with
      | none => none
      | some v =>
        some ({ s with value_len := wsub s.value_len 1, value := v }, true)
  | none => some (s.insertPhase f key)

/-- The two failure modes of `render`: the `fmt::Error` configuration error
for `max_width <= 3`, and the `unimplemented!` panic for over-wide content. -/
inductive RenderErr where
  | fmtError
  | unimplemented
deriving DecidableEq, Repr

/-- Source `print_mask`: `len` copies of the mask character's UTF-8 encoding. -/
def printMask (len : Nat) (mask : Char) : List Nat :=
  (List.replicate len (utf8Encode mask)).flatten

/-- Source `StringInput::render` with the backend modelled as an infallible byte
accumulator: the result is the state the method leaves (threaded because the
source takes `&mut self`), the outcome, and the bytes written. -/
def StringInput.render (s : StringInput) (maxWidth : Nat) :
    StringInput × Except RenderErr Unit × List Nat :=
  if s.hide_output then (s, .ok (), [])
  else if maxWidth ≤ 3 then (s, .error .fmtError, [])
  else if maxWidth < s.value_len then (s, .error .unimplemented, [])
  else
    match s.mask with
    | some mask => (s, .ok (), printMask s.value_len mask)
    | none => (s, .ok (), utf8Bytes s.value.chars)

/-- Source `widgets::no_filter`: the default character filter. -/
def no_filter (c : Char) : Option Char := some c

/-- Folding `handle_key` over a list of key events; `none` as soon as one
call panics. -/
def runKeys (f : Char → Option Char) :
    StringInput → List KeyEvent → Option StringInput
  | s, [] => some s
  | s, k :: ks =>
    match s.handleKey f k with
    | none => none
    | some (s2, _) => runKeys f s2 ks

/-! ### Arithmetic and byte-slicing lemmas -/

theorem wsub_of_le {a b : Nat} (h : b ≤ a) : wsub a b = a - b := if_pos h

theorem wsub_zero (a : Nat) : wsub a 0 = a := by simp [wsub]

theorem charUtf8Size_pos (c : Char) : 1 ≤ charUtf8Size c := by
  unfold charUtf8Size
  repeat first | omega | split

theorem utf8TotalLen_nil : utf8TotalLen [] = 0 := rfl

theorem utf8TotalLen_cons (c : Char) (s : List Char) :
    utf8TotalLen (c :: s) = charUtf8Size c + utf8TotalLen s := by
  simp [utf8TotalLen]

theorem utf8TotalLen_append (xs ys : List Char) :
    utf8TotalLen (xs ++ ys) = utf8TotalLen xs + utf8TotalLen ys := by
  simp [utf8TotalLen]

theorem byteTake_zero (s : List Char) : byteTake s 0 = [] := by
  cases s <;> rfl

theorem byteDrop_zero (s : List Char) : byteDrop s 0 = s := by
  cases s <;> rfl

theorem byteTake_cons (c : Char) (rest : List Char) (n : Nat) (h : n ≠ 0) :
    byteTake (c :: rest) n = c :: byteTake rest (n - charUtf8Size c) := by
  cases n with
  | zero => exact absurd rfl h
  | succ m => rfl

theorem byteDrop_cons (c : Char) (rest : List Char) (n : Nat) (h : n ≠ 0) :
    byteDrop (c :: rest) n = byteDrop rest (n - charUtf8Size c) := by
  cases n with
  | zero => exact absurd rfl h
  | succ m => rfl

theorem byteTake_append_left :
    ∀ (xs ys : List Char), byteTake (xs ++ ys) (utf8TotalLen xs) = xs
  | [], ys => by rw [utf8TotalLen_nil, List.nil_append, byteTake_zero]
  | c :: xs, ys => by
    have h1 := charUtf8Size_pos c
    rw [List.cons_append,
      byteTake_cons c (xs ++ ys) _ (by rw [utf8TotalLen_cons]; omega),
      utf8TotalLen_cons, Nat.add_sub_cancel_left, byteTake_append_left xs ys]

theorem byteDrop_append_left :
    ∀ (xs ys : List Char), byteDrop (xs ++ ys) (utf8TotalLen xs) = ys
  | [], ys => by rw [utf8TotalLen_nil, List.nil_append, byteDrop_zero]
  | c :: xs, ys => by
    have h1 := charUtf8Size_pos c
    rw [List.cons_append,
      byteDrop_cons c (xs ++ ys) _ (by rw [utf8TotalLen_cons]; omega),
      utf8TotalLen_cons, Nat.add_sub_cancel_left, byteDrop_append_left xs ys]

theorem byteTake_all (s : List Char) : byteTake s (utf8TotalLen s) = s := by
  have := byteTake_append_left s []
  simpa using this

theorem byteDrop_all (s : List Char) : byteDrop s (utf8TotalLen s) = [] := by
  have := byteDrop_append_left s []
  simpa using this

theorem charIdxOfByteAux_append_left :
    ∀ (xs ys : List Char) (pos idx : Nat),
      charIdxOfByteAux (pos + utf8TotalLen xs) (xs ++ ys) pos idx =
        idx + xs.length
  | [], ys, pos, idx => by
    rw [utf8TotalLen_nil, Nat.add_zero, List.nil_append]
    cases ys with
    | nil => simp [charIdxOfByteAux]
    | cons c rest => simp [charIdxOfByteAux]
  | c :: xs, ys, pos, idx => by
    have h1 := charUtf8Size_pos c
    have hne : pos ≠ pos + utf8TotalLen (c :: xs) := by
      rw [utf8TotalLen_cons]; omega
    rw [List.cons_append]
    show (if pos = pos + utf8TotalLen (c :: xs) then idx
      else charIdxOfByteAux (pos + utf8TotalLen (c :: xs)) (xs ++ ys)
        (pos + charUtf8Size c) (idx + 1)) = idx + (c :: xs).length
    rw [if_neg hne, utf8TotalLen_cons, ← Nat.add_assoc,
      charIdxOfByteAux_append_left xs ys (pos + charUtf8Size c) (idx + 1)]
    simp; omega

theorem charIdxOfByte_append_left (xs ys : List Char) :
    charIdxOfByte (xs ++ ys) (utf8TotalLen xs) = xs.length := by
  have := charIdxOfByteAux_append_left xs ys 0 0
  simpa [charIdxOfByte] using this

theorem charIdxOfByte_all (s : List Char) :
    charIdxOfByte s (utf8TotalLen s) = s.length := by
  have := charIdxOfByte_append_left s []
  simpa using this

/-! ### Word-segmentation lemmas -/

theorem wordStartsFrom_append :
    ∀ (xs ys : List Char) (b : Bool) (pos : Nat),
      wordStartsFrom b pos (xs ++ ys) =
        wordStartsFrom b pos xs ++
          wordStartsFrom (endClass b xs) (pos + utf8TotalLen xs) ys
  | [], ys, b, pos => by simp [wordStartsFrom, endClass, utf8TotalLen]
  | c :: xs, ys, b, pos => by
    rw [List.cons_append]
    by_cases hc : rustIsWhitespace c
    · simp only [wordStartsFrom, endClass, hc, if_pos]
      rw [wordStartsFrom_append xs ys true (pos + charUtf8Size c),
        utf8TotalLen_cons]
      simp [Nat.add_assoc]
    · by_cases hb : b
      · simp only [wordStartsFrom, endClass, hc, hb, if_neg, if_pos,
          Bool.false_eq_true, if_false, if_true]
        rw [wordStartsFrom_append xs ys false (pos + charUtf8Size c),
          utf8TotalLen_cons]
        simp [Nat.add_assoc]
      · simp only [wordStartsFrom, endClass, hc, hb, Bool.false_eq_true,
          if_false]
        rw [wordStartsFrom_append xs ys false (pos + charUtf8Size c),
          utf8TotalLen_cons]
        simp [Nat.add_assoc]

theorem wordStartsFrom_allWs :
    ∀ (xs : List Char), (∀ c ∈ xs, rustIsWhitespace c = true) →
      ∀ (b : Bool) (pos : Nat), wordStartsFrom b pos xs = []
  | [], _, _, _ => rfl
  | c :: xs, h, b, pos => by
    have hc : rustIsWhitespace c = true := h c (by simp)
    simp only [wordStartsFrom, hc, if_true]
    exact wordStartsFrom_allWs xs (fun d hd => h d (by simp [hd])) true _

theorem endClass_allWs :
    ∀ (xs : List Char), (∀ c ∈ xs, rustIsWhitespace c = true) →
      endClass true xs = true
  | [], _ => rfl
  | c :: xs, h => by
    have hc : rustIsWhitespace c = true := h c (by simp)
    simp only [endClass, hc]
    exact endClass_allWs xs (fun d hd => h d (by simp [hd]))

theorem endClass_allNonWs :
    ∀ (xs : List Char), xs ≠ [] →
      (∀ c ∈ xs, rustIsWhitespace c = false) →
      ∀ (b : Bool), endClass b xs = false
  | [], hne, _, _ => absurd rfl hne
  | c :: xs, _, h, b => by
    have hc : rustIsWhitespace c = false := h c (by simp)
    simp only [endClass, hc]
    cases xs with
    | nil => rfl
    | cons d rest =>
      exact endClass_allNonWs (d :: rest) (by simp)
        (fun e he => h e (by simp at he; simp [he])) false

theorem endClass_allWs_ne :
    ∀ (xs : List Char), xs ≠ [] →
      (∀ c ∈ xs, rustIsWhitespace c = true) →
      ∀ (b : Bool), endClass b xs = true
  | [], hne, _, _ => absurd rfl hne
  | c :: xs, _, h, b => by
    have hc : rustIsWhitespace c = true := h c (by simp)
    simp only [endClass, hc]
    cases xs with
    | nil => rfl
    | cons d rest =>
      exact endClass_allWs_ne (d :: rest) (by simp)
        (fun e he => h e (by simp at he; simp [he])) true

theorem wordStartsFrom_word :
    ∀ (w : List Char), w ≠ [] →
      (∀ c ∈ w, rustIsWhitespace c = false) →
      ∀ (b : Bool) (pos : Nat),
        wordStartsFrom b pos w = if b then [pos] else []
  | [], hne, _, _, _ => absurd rfl hne
  | c :: w, _, h, b, pos => by
    have hc : rustIsWhitespace c = false := h c (by simp)
    simp only [wordStartsFrom, hc, Bool.false_eq_true, if_false]
    cases w with
    | nil => cases b <;> simp [wordStartsFrom]
    | cons d rest =>
      have hrec := wordStartsFrom_word (d :: rest) (by simp)
        (fun e he => h e (by simp at he; simp [he])) false
        (pos + charUtf8Size c)
      cases b <;> simp [hrec]

/-- Word starts of a string ending in word-plus-whitespace whose prefix `p`
is empty or ends in whitespace: the starts in `p`, then the start of `w`. -/
theorem wordStarts_trailing (p w ws : List Char)
    (hp : endClass true p = true)
    (hw : w ≠ []) (hwall : ∀ c ∈ w, rustIsWhitespace c = false)
    (hwsall : ∀ c ∈ ws, rustIsWhitespace c = true) :
    wordStarts (p ++ (w ++ ws)) =
      wordStartsFrom true 0 p ++ [utf8TotalLen p] := by
  rw [wordStarts, wordStartsFrom_append p (w ++ ws) true 0, hp,
    wordStartsFrom_append w ws true (0 + utf8TotalLen p),
    wordStartsFrom_word w hw hwall true _,
    wordStartsFrom_allWs ws hwsall _ _]
  simp

/-- Word starts of a slice beginning with a whitespace run and a word: the
word's start, then whatever follows the word. -/
theorem wordStarts_ws_word (ws1 w1 rest : List Char)
    (hws1all : ∀ c ∈ ws1, rustIsWhitespace c = true)
    (hw1 : w1 ≠ []) (hw1all : ∀ c ∈ w1, rustIsWhitespace c = false) :
    wordStarts (ws1 ++ (w1 ++ rest)) =
      utf8TotalLen ws1 ::
        wordStartsFrom false (utf8TotalLen ws1 + utf8TotalLen w1) rest := by
  rw [wordStarts, wordStartsFrom_append ws1 (w1 ++ rest) true 0,
    wordStartsFrom_allWs ws1 hws1all true 0,
    endClass_allWs ws1 hws1all,
    wordStartsFrom_append w1 rest true (0 + utf8TotalLen ws1),
    wordStartsFrom_word w1 hw1 hw1all true _,
    endClass_allNonWs w1 hw1 hw1all true]
  simp [Nat.add_assoc]

/-! ### Capacity lemmas -/

theorem growCap_le (cap n : Nat) : cap ≤ growCap cap n := by
  unfold growCap
  split
  · exact Nat.le_refl cap
  · exact Nat.le_trans (by omega) (Nat.le_max_left (2 * cap) n)

theorem growCap_pos (cap n : Nat) (h : 1 ≤ n) : 0 < growCap cap n := by
  unfold growCap
  split
  · omega
  · exact Nat.lt_of_lt_of_le h (Nat.le_max_right _ _)

theorem removeAt_cap {s : RString} {i : Nat} {v : RString}
    (h : s.removeAt i = some v) : v.cap = s.cap := by
  unfold RString.removeAt at h
  split at h
  · simp at h
  · simp only [Option.some.injEq] at h
    rw [← h]

theorem movementPhase_value (st : StringInput) (key : KeyEvent) :
    (st.movementPhase key).1.value = st.value := by
  unfold StringInput.movementPhase
  repeat first | rfl | split

/-- Every successful `handle_key` call leaves the capacity of the value at
least what it was: deletions keep the allocation, insertions may only grow
it. -/
theorem handleKey_cap_mono (f : Char → Option Char) (s : StringInput)
    (k : KeyEvent) (s2 : StringInput) (b : Bool)
    (h : s.handleKey f k = some (s2, b)) : s.value.cap ≤ s2.value.cap := by
  unfold StringInput.handleKey at h
  split at h
  · simp only [Option.some.injEq, Prod.mk.injEq] at h
    rw [← h.1]
    exact Nat.le_refl _
  · simp only [Option.some.injEq, Prod.mk.injEq] at h
    rw [← h.1]
    exact Nat.le_refl _
  · split at h
    · simp only [Option.some.injEq, Prod.mk.injEq] at h
      rw [← h.1]
      exact Nat.le_refl _
    · dsimp only at h
      split at h
      · simp at h
      · rename_i v hrem
        simp only [Option.some.injEq, Prod.mk.injEq] at h
        rw [← h.1]
        exact Nat.le_of_eq (removeAt_cap hrem).symm
  · simp only [Option.some.injEq, Prod.mk.injEq] at h
    rw [← h.1]
    exact Nat.le_refl _
  · simp only [Option.some.injEq, Prod.mk.injEq] at h
    rw [← h.1]
    exact Nat.le_refl _
  · split at h
    · simp only [Option.some.injEq, Prod.mk.injEq] at h
      rw [← h.1]
      exact Nat.le_refl _
    · dsimp only at h
      split at h
      · simp at h
      · rename_i v hrem
        simp only [Option.some.injEq, Prod.mk.injEq] at h
        rw [← h.1]
        exact Nat.le_of_eq (removeAt_cap hrem).symm
  · simp only [Option.some.injEq] at h
    unfold StringInput.insertPhase at h
    split at h
    · split at h
      · split at h
        · split at h
          · injection h with h1 h2
            rw [← h1]
            exact growCap_le _ _
          · injection h with h1 h2
            rw [← h1]
            exact growCap_le _ _
        · rename_i st key hcode hmods hfc
          have h1 : (s.movementPhase k).1 = s2 := congrArg Prod.fst h
          rw [← h1, movementPhase_value]
      · have h1 : (s.movementPhase k).1 = s2 := congrArg Prod.fst h
        rw [← h1, movementPhase_value]
    · have h1 : (s.movementPhase k).1 = s2 := congrArg Prod.fst h
      rw [← h1, movementPhase_value]

/-- Capacity never shrinks along a successful run of `handle_key` calls. -/
theorem runKeys_cap_mono (f : Char → Option Char) :
    ∀ (ks : List KeyEvent) (s s2 : StringInput),
      runKeys f s ks = some s2 → s.value.cap ≤ s2.value.cap
  | [], s, s2, h => by
    simp only [runKeys, Option.some.injEq] at h
    rw [← h]
  | k :: ks, s, s2, h => by
    unfold runKeys at h
    cases hk : s.handleKey f k with
    | none => rw [hk] at h; simp at h
    | some p =>
      obtain ⟨s3, b3⟩ := p
      rw [hk] at h
      exact Nat.le_trans (handleKey_cap_mono f s k s3 b3 hk)
        (runKeys_cap_mono f ks s3 s2 h)

/-! ### Key-event shorthands used by the claim statements -/

/-- No modifier pressed. -/
def noMods : KeyModifiers := ⟨false, false, false⟩

/-- Control only. -/
def ctrlMods : KeyModifiers := ⟨true, false, false⟩

/-- Alt only. -/
def altMods : KeyModifiers := ⟨false, true, false⟩

/-! ### Claim C1 -/

/-- Claim C1 (code bug): the cursor/length invariant is claimed to hold after
every `handle_key` call, explicitly including the Ctrl+W and Ctrl+D deletion
shortcuts at cursor boundaries and on an empty buffer.  The code violates it:
the `cursor == 0` guard of `is_delete_movement` matches only
`KeyCode::Backspace`, so Ctrl+W (classified `Movement::Left`) on the empty
buffer runs `self.at -= 1; self.value_len -= 1`, wrapping cursor and length
to 2^64 - 1 while the content stays empty (debug builds panic at the
subtraction); and the `cursor == length` guard matches only
`KeyCode::Delete`, so Ctrl+D (classified `Movement::Right`) on the empty
buffer reaches `String::remove` out of range and panics in every profile. -/
theorem claim_C1_invariant_broken :
    StringInput.handleKey no_filter StringInput.new ⟨.char 'w', ctrlMods⟩ =
      some (⟨⟨[], 0⟩, none, false, USIZE - 1, USIZE - 1⟩, true) ∧
    USIZE - 1 ≠ (([] : List Char)).length ∧
    StringInput.handleKey no_filter StringInput.new ⟨.char 'd', ctrlMods⟩ =
      none := by
  decide

/-! ### Claim C2 -/

/-- Claim C2, counterexample: delete-to-home (Ctrl+U) with `cursor == 0`
leaves the state unchanged but `handle_key` returns `true`, not `false` as
the claim demands: the `Movement::Home` branch runs unconditionally and ends
in `return true` even when it removed nothing. -/
theorem claim_C2_counterexample :
    StringInput.handleKey no_filter StringInput.new ⟨.char 'u', ctrlMods⟩ ≠
      some (StringInput.new, false) ∧
    StringInput.handleKey no_filter StringInput.new ⟨.char 'u', ctrlMods⟩ =
      some (StringInput.new, true) := by
  decide

/-- Claim C2 as amended: a plain character the filter rejects, and
boundary-clamped plain movements (Left/PrevWord at cursor 0, Right/NextWord
at cursor == length, Home at 0, End at end), leave `(content, cursor,
length)` bit-for-bit unchanged and return `false`; but the delete-class
boundary no-ops — Ctrl+U at cursor 0 and Ctrl+K at cursor == length — leave
the state unchanged while returning `true`. -/
theorem claim_C2_amended (f : Char → Option Char) (s : StringInput) :
    (∀ c mods, mods.control = false → mods.alt = false → f c = none →
      s.handleKey f ⟨.char c, mods⟩ = some (s, false)) ∧
    (∀ mods, s.at_ = 0 →
      s.handleKey f ⟨.left, mods⟩ = some (s, false)) ∧
    (∀ mods, s.at_ = s.value_len →
      s.handleKey f ⟨.right, mods⟩ = some (s, false)) ∧
    (∀ mods, s.at_ = 0 →
      s.handleKey f ⟨.home, mods⟩ = some (s, false)) ∧
    (∀ mods, s.at_ = s.value_len →
      s.handleKey f ⟨.endKey, mods⟩ = some (s, false)) ∧
    (s.at_ = 0 →
      s.handleKey f ⟨.char 'u', ctrlMods⟩ = some (s, true)) ∧
    (s.at_ = s.value_len → s.value_len = s.value.chars.length →
      s.handleKey f ⟨.char 'k', ctrlMods⟩ = some (s, true)) := by
  refine ⟨?_, ?_, ?_, ?_, ?_, ?_, ?_⟩
  · intro c mods hc ha hf
    simp [StringInput.handleKey, StringInput.isDeleteMovement, hc, ha, hf,
      StringInput.insertPhase, StringInput.movementPhase, tryFromKey]
  · intro mods h
    by_cases hm : mods.control = true ∨ mods.alt = true
    all_goals simp [StringInput.handleKey, StringInput.isDeleteMovement,
      StringInput.insertPhase, StringInput.movementPhase, tryFromKey, hm, h]
  · intro mods h
    by_cases hm : mods.control = true ∨ mods.alt = true
    all_goals simp [StringInput.handleKey, StringInput.isDeleteMovement,
      StringInput.insertPhase, StringInput.movementPhase, tryFromKey, hm, h]
  · intro mods h
    simp [StringInput.handleKey, StringInput.isDeleteMovement,
      StringInput.insertPhase, StringInput.movementPhase, tryFromKey, h]
  · intro mods h
    simp [StringInput.handleKey, StringInput.isDeleteMovement,
      StringInput.insertPhase, StringInput.movementPhase, tryFromKey, h]
  · intro h
    obtain ⟨⟨chars, cap⟩, mask, hide, len, a⟩ := s
    simp only at h
    subst h
    simp [StringInput.handleKey, StringInput.isDeleteMovement, ctrlMods,
      byteIdxOfChar, byteTake_zero, byteDrop_zero, wsub_zero,
      RString.replaceRangeEmpty, utf8TotalLen_nil]
  · intro h hlen
    obtain ⟨⟨chars, cap⟩, mask, hide, len, a⟩ := s
    simp only at h hlen
    subst h
    subst hlen
    have hb : byteIdxOfChar chars chars.length =
        utf8TotalLen chars := by
      rw [byteIdxOfChar, List.take_length]
    simp [StringInput.handleKey, StringInput.isDeleteMovement, ctrlMods,
      hb, RString.truncateAt, byteTake_all]

/-- Concrete instance of the amended Claim C2: the rejecting filter on a
plain character, the clamped Left at cursor 0, and Ctrl+U at cursor 0 on
the empty buffer. -/
theorem claim_C2_witness :
    StringInput.handleKey (fun _ => none) StringInput.new
        ⟨.char 'C', noMods⟩ = some (StringInput.new, false) ∧
    StringInput.handleKey (fun _ => none) StringInput.new ⟨.left, noMods⟩ =
      some (StringInput.new, false) ∧
    StringInput.handleKey (fun _ => none) StringInput.new
        ⟨.char 'u', ctrlMods⟩ = some (StringInput.new, true) :=
  ⟨(claim_C2_amended (fun _ => none) StringInput.new).1 'C' noMods rfl rfl
      rfl,
    (claim_C2_amended (fun _ => none) StringInput.new).2.1 noMods rfl,
    (claim_C2_amended (fun _ => none) StringInput.new).2.2.2.2.2.1 rfl⟩

/-! ### Claim C3 -/

/-- Claim C3, counterexample: with `hide_output` set, `render(3)` succeeds
(writing nothing) instead of returning the configuration error the claim
demands for every buffer: the `hide_output` early return precedes the
`max_width <= 3` check. -/
theorem claim_C3_counterexample :
    StringInput.render ⟨⟨[], 0⟩, none, true, 0, 0⟩ 3 =
      (⟨⟨[], 0⟩, none, true, 0, 0⟩, Except.ok (), []) ∧
    (Except.ok () : Except RenderErr Unit) ≠
      Except.error RenderErr.fmtError := by
  refine ⟨rfl, ?_⟩
  intro h
  simp at h

/-- Claim C3 as amended: for every buffer with `hide_output` unset (any
content, any mask), `render` with `max_width == 3` returns the formatting
configuration error and writes nothing; with `hide_output` set it returns
`Ok` and also writes nothing. -/
theorem claim_C3_amended (s : StringInput) :
    (s.hide_output = false →
      s.render 3 = (s, Except.error RenderErr.fmtError, [])) ∧
    (s.hide_output = true → s.render 3 = (s, Except.ok (), [])) := by
  constructor
  · intro h
    simp [StringInput.render, h]
  · intro h
    simp [StringInput.render, h]

/-- Concrete instance of the amended Claim C3: a masked one-character buffer
without `hide_output` errors at width 3. -/
theorem claim_C3_witness :
    StringInput.render ⟨⟨['a'], 1⟩, some '*', false, 1, 1⟩ 3 =
      (⟨⟨['a'], 1⟩, some '*', false, 1, 1⟩,
        Except.error RenderErr.fmtError, []) :=
  (claim_C3_amended ⟨⟨['a'], 1⟩, some '*', false, 1, 1⟩).1 rfl

/-! ### Claim C4 -/

/-- Claim C4, counterexample: for the empty string with no allocation
(`String::new()`, capacity 0), `set_value(s)` followed by `finish()` yields
`None`, not `Some(s)`: `has_value` tests `capacity() > 0`, and assigning an
unallocated string leaves the capacity at 0. -/
theorem claim_C4_counterexample :
    (StringInput.setValue StringInput.new ⟨[], 0⟩).finish = none ∧
    (none : Option RString) ≠ some ⟨[], 0⟩ := by
  decide

/-- Claim C4 as amended: for every string `s` with allocated storage
(capacity > 0, which Rust guarantees for every string actually holding
characters), `set_value(s)` followed by `finish()` with no intervening
edits yields `Some(s)`. -/
theorem claim_C4_amended (b : StringInput) (s : RString) (h : 0 < s.cap) :
    (b.setValue s).finish = some s := by
  simp [StringInput.setValue, StringInput.finish, StringInput.hasValue, h]

/-- Concrete instance of the amended Claim C4: a one-character string with
capacity 1 round-trips. -/
theorem claim_C4_witness :
    (StringInput.setValue StringInput.new ⟨['a'], 1⟩).finish =
      some ⟨['a'], 1⟩ :=
  claim_C4_amended StringInput.new ⟨['a'], 1⟩ (by decide)

/-! ### Claim C5 -/

/-- Claim C5, counterexample: content "a  b" with the cursor at character 2
(inside the whitespace run).  The claim says delete-next-word's right
boundary is the start of the first word after the whitespace, character 3,
which would leave "a b"; but `find_word_right` takes `.nth(1)` of the
filtered word iterator, so the immediately following word "b" is passed
over and the deletion runs to the end, leaving "a ". -/
theorem claim_C5_counterexample :
    StringInput.handleKey no_filter
        ⟨⟨['a', ' ', ' ', 'b'], 4⟩, none, false, 4, 2⟩
        ⟨.delete, altMods⟩ =
      some (⟨⟨['a', ' '], 4⟩, none, false, 2, 2⟩, true) ∧
    (['a', ' '] : List Char) ≠ ['a', ' ', 'b'] := by
  decide

/-- Claim C5 as amended: for a buffer whose cursor sits on a run of
whitespace (content `pre ++ ws1 ++ w1 ++ rest`, cursor at the end of
`pre`), the NextWord operations (Alt+Delete's right boundary, and
Ctrl+Right movement) skip the leading whitespace AND the immediately
following word `w1`, targeting the start of the second word after the
cursor — or the end of the buffer when only whitespace follows `w1`. -/
theorem claim_C5_amended (pre ws1 w1 : List Char) (cap : Nat)
    (mask : Option Char) (hide : Bool) (f : Char → Option Char)
    (hws1 : ws1 ≠ []) (hws1all : ∀ c ∈ ws1, rustIsWhitespace c = true)
    (hw1 : w1 ≠ []) (hw1all : ∀ c ∈ w1, rustIsWhitespace c = false) :
    (∀ rest, (∀ c ∈ rest, rustIsWhitespace c = true) →
      (StringInput.handleKey f
          ⟨⟨pre ++ (ws1 ++ (w1 ++ rest)), cap⟩, mask, hide,
            (pre ++ (ws1 ++ (w1 ++ rest))).length, pre.length⟩
          ⟨.delete, altMods⟩ =
        some (⟨⟨pre, cap⟩, mask, hide, pre.length, pre.length⟩, true)) ∧
      (StringInput.handleKey f
          ⟨⟨pre ++ (ws1 ++ (w1 ++ rest)), cap⟩, mask, hide,
            (pre ++ (ws1 ++ (w1 ++ rest))).length, pre.length⟩
          ⟨.right, ctrlMods⟩ =
        some (⟨⟨pre ++ (ws1 ++ (w1 ++ rest)), cap⟩, mask, hide,
          (pre ++ (ws1 ++ (w1 ++ rest))).length,
          (pre ++ (ws1 ++ (w1 ++ rest))).length⟩, true))) ∧
    (∀ ws2 w2 tail, ws2 ≠ [] → (∀ c ∈ ws2, rustIsWhitespace c = true) →
      w2 ≠ [] → (∀ c ∈ w2, rustIsWhitespace c = false) →
      (StringInput.handleKey f
          ⟨⟨pre ++ (ws1 ++ (w1 ++ (ws2 ++ (w2 ++ tail)))), cap⟩, mask, hide,
            (pre ++ (ws1 ++ (w1 ++ (ws2 ++ (w2 ++ tail))))).length,
            pre.length⟩ ⟨.delete, altMods⟩ =
        some (⟨⟨pre ++ (w2 ++ tail), cap⟩, mask, hide,
          (pre ++ (w2 ++ tail)).length, pre.length⟩, true)) ∧
      (StringInput.handleKey f
          ⟨⟨pre ++ (ws1 ++ (w1 ++ (ws2 ++ (w2 ++ tail)))), cap⟩, mask, hide,
            (pre ++ (ws1 ++ (w1 ++ (ws2 ++ (w2 ++ tail))))).length,
            pre.length⟩ ⟨.right, ctrlMods⟩ =
        some (⟨⟨pre ++ (ws1 ++ (w1 ++ (ws2 ++ (w2 ++ tail)))), cap⟩, mask,
          hide, (pre ++ (ws1 ++ (w1 ++ (ws2 ++ (w2 ++ tail))))).length,
          (pre ++ (ws1 ++ (w1 ++ ws2))).length⟩, true))) := by
  have hws1len : ws1.length ≠ 0 := by
    cases ws1
    · exact absurd rfl hws1
    · simp
  constructor
  · intro rest hrest
    have hL : (pre ++ (ws1 ++ (w1 ++ rest))).length =
        pre.length + (ws1.length + (w1.length + rest.length)) := by simp
    have hne : ¬ pre.length = (pre ++ (ws1 ++ (w1 ++ rest))).length := by
      omega
    have hple : pre.length ≤ (pre ++ (ws1 ++ (w1 ++ rest))).length := by
      omega
    have hbyteI : byteIdxOfChar (pre ++ (ws1 ++ (w1 ++ rest))) pre.length =
        utf8TotalLen pre := by
      rw [byteIdxOfChar, List.take_left]
    have hfwr : findWordRight (pre ++ (ws1 ++ (w1 ++ rest)))
        (utf8TotalLen pre) =
        utf8TotalLen (pre ++ (ws1 ++ (w1 ++ rest))) := by
      rw [findWordRight, byteDrop_append_left pre (ws1 ++ (w1 ++ rest)),
        wordStarts_ws_word ws1 w1 rest hws1all hw1 hw1all,
        wordStartsFrom_allWs rest hrest false _]
      rfl
    constructor
    · have hmovD : (⟨⟨pre ++ (ws1 ++ (w1 ++ rest)), cap⟩, mask, hide,
          (pre ++ (ws1 ++ (w1 ++ rest))).length, pre.length⟩ :
          StringInput).isDeleteMovement ⟨.delete, altMods⟩ =
          some Movement.nextWord := by
        show (if pre.length = (pre ++ (ws1 ++ (w1 ++ rest))).length then none
          else if altMods.alt then some Movement.nextWord
          else some Movement.right) = some Movement.nextWord
        rw [if_neg hne]
        rfl
      unfold StringInput.handleKey
      rw [hmovD]
      dsimp only
      rw [hbyteI, hfwr, charIdxOfByte_all, wsub_of_le hple,
        wsub_of_le (Nat.sub_le _ _), Nat.sub_sub_self hple]
      simp [RString.replaceRangeEmpty, byteTake_append_left, byteDrop_all]
    · have hmovM : (⟨⟨pre ++ (ws1 ++ (w1 ++ rest)), cap⟩, mask, hide,
          (pre ++ (ws1 ++ (w1 ++ rest))).length, pre.length⟩ :
          StringInput).isDeleteMovement ⟨.right, ctrlMods⟩ = none := rfl
      have htfk : tryFromKey ⟨.right, ctrlMods⟩ = some Movement.nextWord :=
        rfl
      unfold StringInput.handleKey
      rw [hmovM]
      dsimp only
      unfold StringInput.insertPhase
      dsimp only
      unfold StringInput.movementPhase
      rw [htfk]
      dsimp only
      rw [if_pos hne, hbyteI, hfwr, charIdxOfByte_all]
  · intro ws2 w2 tail hws2 hws2all hw2 hw2all
    have hL : (pre ++ (ws1 ++ (w1 ++ (ws2 ++ (w2 ++ tail))))).length =
        pre.length + (ws1.length + (w1.length +
          (ws2.length + (w2.length + tail.length)))) := by simp
    have hne : ¬ pre.length =
        (pre ++ (ws1 ++ (w1 ++ (ws2 ++ (w2 ++ tail))))).length := by
      omega
    have hbyteI : byteIdxOfChar (pre ++ (ws1 ++ (w1 ++ (ws2 ++ (w2 ++ tail)))))
        pre.length = utf8TotalLen pre := by
      rw [byteIdxOfChar, List.take_left]
    have hsplit : pre ++ (ws1 ++ (w1 ++ (ws2 ++ (w2 ++ tail)))) =
        (pre ++ (ws1 ++ (w1 ++ ws2))) ++ (w2 ++ tail) := by
      simp [List.append_assoc]
    have hfwr : findWordRight (pre ++ (ws1 ++ (w1 ++ (ws2 ++ (w2 ++ tail)))))
        (utf8TotalLen pre) =
        utf8TotalLen (pre ++ (ws1 ++ (w1 ++ ws2))) := by
      rw [findWordRight,
        byteDrop_append_left pre (ws1 ++ (w1 ++ (ws2 ++ (w2 ++ tail)))),
        wordStarts_ws_word ws1 w1 (ws2 ++ (w2 ++ tail)) hws1all hw1 hw1all,
        wordStartsFrom_append ws2 (w2 ++ tail) false
          (utf8TotalLen ws1 + utf8TotalLen w1),
        wordStartsFrom_allWs ws2 hws2all false _,
        endClass_allWs_ne ws2 hws2 hws2all false,
        wordStartsFrom_append w2 tail true _,
        wordStartsFrom_word w2 hw2 hw2all true _]
      simp only [List.nil_append, if_true, List.cons_append,
        List.singleton_append]
      show utf8TotalLen ws1 + utf8TotalLen w1 + utf8TotalLen ws2 +
          utf8TotalLen pre = utf8TotalLen (pre ++ (ws1 ++ (w1 ++ ws2)))
      simp only [utf8TotalLen_append]
      omega
    have hcidx : charIdxOfByte (pre ++ (ws1 ++ (w1 ++ (ws2 ++ (w2 ++ tail)))))
        (utf8TotalLen (pre ++ (ws1 ++ (w1 ++ ws2)))) =
        (pre ++ (ws1 ++ (w1 ++ ws2))).length := by
      rw [hsplit]
      exact charIdxOfByte_append_left (pre ++ (ws1 ++ (w1 ++ ws2))) (w2 ++ tail)
    have hbdrop : byteDrop (pre ++ (ws1 ++ (w1 ++ (ws2 ++ (w2 ++ tail)))))
        (utf8TotalLen (pre ++ (ws1 ++ (w1 ++ ws2)))) = w2 ++ tail := by
      rw [hsplit]
      exact byteDrop_append_left (pre ++ (ws1 ++ (w1 ++ ws2))) (w2 ++ tail)
    have harith : wsub (pre ++ (ws1 ++ (w1 ++ (ws2 ++ (w2 ++ tail))))).length
        (wsub (pre ++ (ws1 ++ (w1 ++ ws2))).length pre.length) =
        (pre ++ (w2 ++ tail)).length := by
      have h1 : pre.length ≤ (pre ++ (ws1 ++ (w1 ++ ws2))).length := by
        simp
      rw [wsub_of_le h1, wsub_of_le (by simp; omega)]
      simp only [List.length_append]
      omega
    constructor
    · have hmovD : (⟨⟨pre ++ (ws1 ++ (w1 ++ (ws2 ++ (w2 ++ tail)))), cap⟩,
          mask, hide,
          (pre ++ (ws1 ++ (w1 ++ (ws2 ++ (w2 ++ tail))))).length,
          pre.length⟩ :
          StringInput).isDeleteMovement ⟨.delete, altMods⟩ =
          some Movement.nextWord := by
        show (if pre.length =
            (pre ++ (ws1 ++ (w1 ++ (ws2 ++ (w2 ++ tail))))).length then none
          else if altMods.alt then some Movement.nextWord
          else some Movement.right) = some Movement.nextWord
        rw [if_neg hne]
        rfl
      unfold StringInput.handleKey
      rw [hmovD]
      dsimp only
      rw [hbyteI, hfwr, hcidx, harith]
      simp [RString.replaceRangeEmpty, byteTake_append_left, hbdrop]
    · have hmovM : (⟨⟨pre ++ (ws1 ++ (w1 ++ (ws2 ++ (w2 ++ tail)))), cap⟩,
          mask, hide,
          (pre ++ (ws1 ++ (w1 ++ (ws2 ++ (w2 ++ tail))))).length,
          pre.length⟩ :
          StringInput).isDeleteMovement ⟨.right, ctrlMods⟩ = none := rfl
      have htfk : tryFromKey ⟨.right, ctrlMods⟩ = some Movement.nextWord :=
        rfl
      unfold StringInput.handleKey
      rw [hmovM]
      dsimp only
      unfold StringInput.insertPhase
      dsimp only
      unfold StringInput.movementPhase
      rw [htfk]
      dsimp only
      rw [if_pos hne, hbyteI, hfwr, hcidx]

/-- Concrete instance of the amended Claim C5: "a  b" with the cursor at 2
(viewed as `pre = "a ", ws1 = " ", w1 = "b"`, nothing after); Alt+Delete
removes everything from the cursor to the end, leaving "a ". -/
theorem claim_C5_witness :
    StringInput.handleKey no_filter
        ⟨⟨['a', ' ', ' ', 'b'], 4⟩, none, false, 4, 2⟩
        ⟨.delete, altMods⟩ =
      some (⟨⟨['a', ' '], 4⟩, none, false, 2, 2⟩, true) :=
  ((claim_C5_amended ['a', ' '] [' '] ['b'] 4 none false no_filter
    (by decide) (by decide) (by decide) (by decide)).1 []
    (by intro c hc; cases hc)).1

/-! ### Claim C6 -/

/-- Claim C6 (confirmed): once a `handle_key` call accepts a character
insertion (a plain character key, no control/alt, on which the filter
returns `Some`), `has_value()` is true after every subsequent sequence of
completed `handle_key` calls, including deletions emptying the content:
the insertion allocates (capacity becomes positive) and no operation ever
shrinks the capacity. -/
theorem claim_C6 (f : Char → Option Char) (s : StringInput) (c c2 : Char)
    (mods : KeyModifiers) (s1 : StringInput) (b : Bool)
    (ks : List KeyEvent) (s2 : StringInput)
    (hc : mods.control = false) (ha : mods.alt = false)
    (hf : f c = some c2)
    (h1 : s.handleKey f ⟨.char c, mods⟩ = some (s1, b))
    (h2 : runKeys f s1 ks = some s2) :
    s2.hasValue = true := by
  have hm : s.isDeleteMovement ⟨.char c, mods⟩ = none := by
    simp [StringInput.isDeleteMovement, hc, ha]
  have hpos : 0 < s1.value.cap := by
    unfold StringInput.handleKey at h1
    rw [hm] at h1
    simp only [Option.some.injEq] at h1
    unfold StringInput.insertPhase at h1
    simp only [hc, ha, Bool.or_self, Bool.not_false, if_true, hf] at h1
    have hsz := charUtf8Size_pos c2
    split at h1
    · injection h1 with h3 h4
      rw [← h3]
      exact growCap_pos _ _ (by omega)
    · injection h1 with h3 h4
      rw [← h3]
      exact growCap_pos _ _ (by omega)
  have hmono := runKeys_cap_mono f ks s1 s2 h2
  simp only [StringInput.hasValue, decide_eq_true_eq]
  omega

/-- Concrete instance of Claim C6: type an accepted character, then delete
it with Backspace; the emptied buffer still reports a value. -/
theorem claim_C6_witness :
    StringInput.hasValue ⟨⟨[], 1⟩, none, false, 0, 0⟩ = true :=
  claim_C6 no_filter StringInput.new 'a' 'a' noMods
    ⟨⟨['a'], 1⟩, none, false, 1, 1⟩ true [⟨.backspace, noMods⟩]
    ⟨⟨[], 1⟩, none, false, 0, 0⟩ rfl rfl rfl (by decide) (by decide)

/-! ### Claim C7 -/

/-- Claim C7 (confirmed): with a mask character M set, `hide_output` unset,
content of character length N (with the cached length in sync) and
`3 < max_width`, `N <= max_width`, `render` writes exactly N consecutive
copies of M's UTF-8 encoding — the output is fully determined by N and M,
so no byte of the real content is consulted or written. -/
theorem claim_C7 (s : StringInput) (m : Char) (w : Nat)
    (hm : s.mask = some m) (hh : s.hide_output = false) (hw : 3 < w)
    (hn : s.value_len ≤ w) (hlen : s.value_len = s.value.chars.length) :
    s.render w = (s, Except.ok (),
      (List.replicate s.value.chars.length (utf8Encode m)).flatten) := by
  have h1 : ¬ w ≤ 3 := by omega
  have h2 : ¬ w < s.value_len := by omega
  have h3 : s.value.chars.length ≤ w := by omega
  simp [StringInput.render, hh, h1, h2, h3, hm, printMask, hlen]

/-- Concrete instance of Claim C7: two characters masked by an asterisk at
width 5 render as the two bytes 42, 42. -/
theorem claim_C7_witness :
    StringInput.render ⟨⟨['h', 'i'], 2⟩, some '*', false, 2, 2⟩ 5 =
      (⟨⟨['h', 'i'], 2⟩, some '*', false, 2, 2⟩, Except.ok (),
        [42, 42]) :=
  claim_C7 ⟨⟨['h', 'i'], 2⟩, some '*', false, 2, 2⟩ '*' 5 rfl rfl
    (by decide) (by decide) rfl

/-! ### Claim C8 -/

/-- Claim C8 (confirmed): deleting the previous word (Alt+Backspace) from a
cursor at the end of `p ++ w ++ ws` — i.e. positioned immediately after the
trailing whitespace `ws`, with `w` the whitespace-free word before it and
`p` empty or ending in whitespace — skips the whitespace, removes the word
(the deleted range runs from the word's start to the cursor) and puts the
cursor at the word's former start; concretely, "hello world" with the
cursor at 11 becomes "hello " with cursor 6; and delete-previous-word at
cursor 0 changes nothing. -/
theorem claim_C8 (p w ws : List Char) (cap : Nat) (mask : Option Char)
    (hide : Bool) (f : Char → Option Char)
    (hp : endClass true p = true)
    (hw : w ≠ []) (hwall : ∀ c ∈ w, rustIsWhitespace c = false)
    (hws : ws ≠ []) (hwsall : ∀ c ∈ ws, rustIsWhitespace c = true) :
    (StringInput.handleKey f
        ⟨⟨p ++ (w ++ ws), cap⟩, mask, hide, (p ++ (w ++ ws)).length,
          (p ++ (w ++ ws)).length⟩ ⟨.backspace, altMods⟩ =
      some (⟨⟨p, cap⟩, mask, hide, p.length, p.length⟩, true)) ∧
    (StringInput.handleKey no_filter
        ⟨⟨"hello world".toList, 11⟩, none, false, 11, 11⟩
        ⟨.backspace, altMods⟩ =
      some (⟨⟨"hello ".toList, 11⟩, none, false, 6, 6⟩, true)) ∧
    (∀ (g : Char → Option Char) (t : StringInput), t.at_ = 0 →
      StringInput.handleKey g t ⟨.backspace, altMods⟩ = some (t, false)) := by
  refine ⟨?_, by decide, ?_⟩
  · have hwlen : w.length ≠ 0 := by
      cases w
      · exact absurd rfl hw
      · simp
    have hL : (p ++ (w ++ ws)).length =
        p.length + (w.length + ws.length) := by simp
    have hL0 : ¬ (p ++ (w ++ ws)).length = 0 := by omega
    have hmov : (⟨⟨p ++ (w ++ ws), cap⟩, mask, hide,
        (p ++ (w ++ ws)).length, (p ++ (w ++ ws)).length⟩ :
        StringInput).isDeleteMovement ⟨.backspace, altMods⟩ =
        some Movement.prevWord := by
      show (if (p ++ (w ++ ws)).length = 0 then none
        else if altMods.alt then some Movement.prevWord
        else some Movement.left) = some Movement.prevWord
      rw [if_neg hL0]
      rfl
    unfold StringInput.handleKey
    rw [hmov]
    have hbyteI : byteIdxOfChar (p ++ (w ++ ws)) (p ++ (w ++ ws)).length =
        utf8TotalLen (p ++ (w ++ ws)) := by
      rw [byteIdxOfChar, List.take_length]
    have hfwl : findWordLeft (p ++ (w ++ ws))
        (utf8TotalLen (p ++ (w ++ ws))) = utf8TotalLen p := by
      rw [findWordLeft, byteTake_all,
        wordStarts_trailing p w ws hp hw hwall hwsall,
        List.getLast?_concat]
      rfl
    have hcib : charIdxOfByte (p ++ (w ++ ws)) (utf8TotalLen p) = p.length :=
      charIdxOfByte_append_left p (w ++ ws)
    have hple : p.length ≤ (p ++ (w ++ ws)).length := by omega
    dsimp only
    rw [hbyteI, hfwl, hcib, wsub_of_le hple, wsub_of_le (Nat.sub_le _ _),
      Nat.sub_sub_self hple]
    simp [RString.replaceRangeEmpty, byteTake_append_left, byteDrop_all]
  · intro g t h
    simp [StringInput.handleKey, StringInput.isDeleteMovement, h,
      StringInput.insertPhase, StringInput.movementPhase, tryFromKey]

/-- Concrete instance of the general part of Claim C8: content "ab " with
the cursor at 3 (right after the trailing space); Alt+Backspace deletes
back to position 0. -/
theorem claim_C8_witness :
    StringInput.handleKey no_filter
        ⟨⟨['a', 'b', ' '], 3⟩, none, false, 3, 3⟩ ⟨.backspace, altMods⟩ =
      some (⟨⟨[], 3⟩, none, false, 0, 0⟩, true) :=
  (claim_C8 [] ['a', 'b'] [' '] 3 none false no_filter rfl (by decide)
    (by decide) (by decide) (by decide)).1

/-! ### Claim C9 -/

/-- Claim C9 (confirmed): `render` never mutates the buffer — for every
state and width the state it leaves (whether the outcome is `Ok` or an
error) is the state it received, so `content`, `length`, `cursor`, `mask`
and `hide_output` are unchanged. -/
theorem claim_C9 (s : StringInput) (w : Nat) : (s.render w).1 = s := by
  unfold StringInput.render
  repeat first | rfl | split

/-! ### Claim C10 -/

/-- Claim C10 (confirmed): for every modifier combination, Backspace at
cursor 0 and Delete at cursor == length are never classified as deletions —
the boundary guards are the first arms of `is_delete_movement` — and the
events fall through every later phase, leaving the state unchanged and
returning `false`. -/
theorem claim_C10 (f : Char → Option Char) (s : StringInput)
    (mods : KeyModifiers) :
    (s.at_ = 0 →
      s.isDeleteMovement ⟨.backspace, mods⟩ = none ∧
      s.handleKey f ⟨.backspace, mods⟩ = some (s, false)) ∧
    (s.at_ = s.value_len →
      s.isDeleteMovement ⟨.delete, mods⟩ = none ∧
      s.handleKey f ⟨.delete, mods⟩ = some (s, false)) := by
  constructor
  · intro h
    constructor
    · simp [StringInput.isDeleteMovement, h]
    · simp [StringInput.handleKey, StringInput.isDeleteMovement, h,
        StringInput.insertPhase, StringInput.movementPhase, tryFromKey]
  · intro h
    constructor
    · simp [StringInput.isDeleteMovement, h]
    · simp [StringInput.handleKey, StringInput.isDeleteMovement, h,
        StringInput.insertPhase, StringInput.movementPhase, tryFromKey]

/-- Concrete instance of Claim C10: Alt+Backspace on the empty buffer (and
Alt+Delete, cursor == length == 0) performs no word deletion. -/
theorem claim_C10_witness :
    StringInput.handleKey no_filter StringInput.new ⟨.backspace, altMods⟩ =
      some (StringInput.new, false) ∧
    StringInput.handleKey no_filter StringInput.new ⟨.delete, altMods⟩ =
      some (StringInput.new, false) :=
  ⟨((claim_C10 no_filter StringInput.new altMods).1 rfl).2,
    ((claim_C10 no_filter StringInput.new altMods).2 rfl).2⟩

end StringInputSpec
